import Mathlib

/-
Verification of the options-pricing / Greeks engine and the retry/rate-limit
infrastructure of the gotick repository (package `yfinance`).

The Go source is shallowly embedded: `float64` values become real numbers,
`int64` becomes `ℤ`, nil-able `*Greeks` results become `Option Greeks`,
and the bounded Newton-Raphson loop becomes fuel-indexed structural
recursion.  `math.Erf` is embedded as the error function
`erf x = (2/√π) ∫ t in 0..x, exp (-t²)`.

Definitions named `...Spec` are transcribed from the natural-language
specification's wording (for refinement comparisons); all other
definitions are transcribed from the Go source in
`pkg/yfinance/greeks.go` and `pkg/yfinance/retry.go`.
-/

namespace Gotick

noncomputable section

open MeasureTheory intervalIntegral

/-- Embedding of Go `math.Erf`: the Gauss error function
`erf x = (2/√π) · ∫ t in 0..x, exp (-t²)`. -/
def erf (x : ℝ) : ℝ :=
  2 / Real.sqrt Real.pi * ∫ t in (0:ℝ)..x, Real.exp (-t ^ 2)

/-- Source `normalCDF` (greeks.go): `0.5 * (1 + math.Erf(x/math.Sqrt2))`. -/
def normalCDF (x : ℝ) : ℝ :=
  0.5 * (1 + erf (x / Real.sqrt 2))

/-- Source `normalPDF` (greeks.go): `math.Exp(-x*x/2) / math.Sqrt(2*math.Pi)`. -/
def normalPDF (x : ℝ) : ℝ :=
  Real.exp (-x * x / 2) / Real.sqrt (2 * Real.pi)

/-- Source struct `Greeks` (greeks.go). -/
structure Greeks where
  delta : ℝ
  gamma : ℝ
  theta : ℝ
  vega : ℝ
  rho : ℝ

/-- Source `CalculateGreeks` (greeks.go).  The Go function returns `nil`
when `T <= 0 || sigma <= 0`; the nil-able pointer is embedded as `Option`. -/
def CalculateGreeks (S K r T sigma : ℝ) (isCall : Bool) : Option Greeks :=
  if T ≤ 0 ∨ sigma ≤ 0 then none
  else
    let sqrtT := Real.sqrt T
    let d1 := (Real.log (S / K) + (r + sigma * sigma / 2) * T) / (sigma * sqrtT)
    let d2 := d1 - sigma * sqrtT
    let Nd1 := normalCDF d1
    let Nd2 := normalCDF d2
    let Nd2Neg := normalCDF (-d2)
    let nd1 := normalPDF d1
    if isCall then
      some
        { delta := Nd1
          gamma := nd1 / (S * sigma * sqrtT)
          theta := (-(S * nd1 * sigma / (2 * sqrtT)) - r * K * Real.exp (-r * T) * Nd2) / 365
          vega := S * sqrtT * nd1 / 100
          rho := K * T * Real.exp (-r * T) * Nd2 / 100 }
    else
      some
        { delta := Nd1 - 1
          gamma := nd1 / (S * sigma * sqrtT)
          theta := (-(S * nd1 * sigma / (2 * sqrtT)) + r * K * Real.exp (-r * T) * Nd2Neg) / 365
          vega := S * sqrtT * nd1 / 100
          rho := -K * T * Real.exp (-r * T) * Nd2Neg / 100 }

/-- Source `blackScholesPrice` (greeks.go). -/
def blackScholesPrice (S K r T sigma : ℝ) (isCall : Bool) : ℝ :=
  if T ≤ 0 then
    if isCall then max (S - K) 0 else max (K - S) 0
  else
    let sqrtT := Real.sqrt T
    let d1 := (Real.log (S / K) + (r + sigma * sigma / 2) * T) / (sigma * sqrtT)
    let d2 := d1 - sigma * sqrtT
    if isCall then
      S * normalCDF d1 - K * Real.exp (-r * T) * normalCDF d2
    else
      K * Real.exp (-r * T) * normalCDF (-d2) - S * normalCDF (-d1)

/-- Source `blackScholesVega` (greeks.go): the unscaled (per-unit) vega used
by the implied-volatility solver. -/
def blackScholesVega (S K r T sigma : ℝ) : ℝ :=
  if T ≤ 0 then 0
  else
    let sqrtT := Real.sqrt T
    let d1 := (Real.log (S / K) + (r + sigma * sigma / 2) * T) / (sigma * sqrtT)
    S * sqrtT * normalPDF d1

/-- Body of the Newton-Raphson loop of source `ImpliedVolatility` (greeks.go),
with the remaining iteration count as explicit fuel.  `fuel = 0` corresponds
to the `for` loop having exhausted its `maxIterations` budget, after which
the current `sigma` is returned. -/
def ivIter (S K r T : ℝ) (isCall : Bool) (marketPrice : ℝ) : ℕ → ℝ → ℝ
  | 0, sigma => sigma
  | fuel + 1, sigma =>
    let price := blackScholesPrice S K r T sigma isCall
    let vega := blackScholesVega S K r T sigma
    if vega = 0 then sigma
    else
      let diff := marketPrice - price
      if |diff| < 0.0001 then sigma
      else
        let s1 := sigma + diff / vega
        let s2 := if s1 < 0.001 then 0.001 else s1
        let s3 := if s2 > 5 then 5 else s2
        ivIter S K r T isCall marketPrice fuel s3

/-- Source `ImpliedVolatility` (greeks.go): Newton-Raphson from the initial
guess `sigma = 0.3` with `maxIterations = 100`. -/
def ImpliedVolatility (marketPrice S K r T : ℝ) (isCall : Bool) : ℝ :=
  ivIter S K r T isCall marketPrice 100 0.3

/-- Source struct `Option` (types.go).  Named `OptionContract` here because
`Option` is taken by Lean's core option type, which embeds the nil-able
Go pointers. -/
structure OptionContract where
  contractSymbol : String
  strike : ℝ
  currency : String
  lastPrice : ℝ
  change : ℝ
  percentChange : ℝ
  volume : ℤ
  openInterest : ℤ
  bid : ℝ
  ask : ℝ
  contractSize : String
  expiration : ℤ
  lastTradeDate : ℤ
  impliedVolatility : ℝ
  inTheMoney : Bool

/-- Source struct `OptionWithGreeks` (greeks.go): an option contract plus its
computed Greeks (or absence thereof). -/
structure OptionWithGreeks where
  option : OptionContract
  greeks : Option Greeks

/-- Source `unixNow` (greeks.go): the current-timestamp helper.  In the source
it returns the placeholder constant `int64(float64(1e9) * float64(1))`. -/
def unixNow : ℤ := 1000000000

/-- Source `CalculateOptionGreeks` (greeks.go). -/
def CalculateOptionGreeks (opt : OptionContract) (underlyingPrice riskFreeRate : ℝ)
    (isCall : Bool) : OptionWithGreeks :=
  let now : ℝ := (unixNow : ℝ)
  let expiry : ℝ := (opt.expiration : ℝ)
  let T0 := (expiry - now) / (365.25 * 24 * 60 * 60)
  let T := if T0 ≤ 0 then 0.0001 else T0
  { option := opt
    greeks := CalculateGreeks underlyingPrice opt.strike riskFreeRate T
      opt.impliedVolatility isCall }

/-- Source struct `OptionChain` (types.go), restricted to the fields read by
`WithGreeks`. -/
structure OptionChain where
  symbol : String
  underlyingPrice : ℝ
  expirationDates : List ℤ
  strikes : List ℝ
  calls : List OptionContract
  puts : List OptionContract

/-- Source struct `OptionChainWithGreeks` (greeks.go). -/
structure OptionChainWithGreeks where
  symbol : String
  underlyingPrice : ℝ
  expirationDates : List ℤ
  strikes : List ℝ
  calls : List OptionWithGreeks
  puts : List OptionWithGreeks

/-- Source method `(*OptionChain).WithGreeks` (greeks.go). -/
def OptionChain.WithGreeks (o : OptionChain) (riskFreeRate : ℝ) : OptionChainWithGreeks :=
  { symbol := o.symbol
    underlyingPrice := o.underlyingPrice
    expirationDates := o.expirationDates
    strikes := o.strikes
    calls := o.calls.map fun c => CalculateOptionGreeks c o.underlyingPrice riskFreeRate true
    puts := o.puts.map fun p => CalculateOptionGreeks p o.underlyingPrice riskFreeRate false }

/-- Projection of the theta field of an optional Greeks value (0 when absent). -/
def thetaOf (og : Option Greeks) : ℝ := og.elim 0 Greeks.theta

/-- Projection of the gamma field of an optional Greeks value (0 when absent). -/
def gammaOf (og : Option Greeks) : ℝ := og.elim 0 Greeks.gamma

/-- Projection of the vega field of an optional Greeks value (0 when absent). -/
def vegaOf (og : Option Greeks) : ℝ := og.elim 0 Greeks.vega

/-- Black-Scholes price transcribed from the specification's wording (§4.1):
intrinsic value `max (S-K) 0` / `max (K-S) 0` when `T ≤ 0`, otherwise
`d1 = [ln(S/K) + (r + σ²/2)·T] / (σ·√T)`, `d2 = d1 - σ·√T`,
call `= S·Φ(d1) - K·e^(-rT)·Φ(d2)`, put `= K·e^(-rT)·Φ(-d2) - S·Φ(-d1)`. -/
def blackScholesPriceSpec (S K r T sigma : ℝ) (isCall : Bool) : ℝ :=
  if T ≤ 0 then
    if isCall then max (S - K) 0 else max (K - S) 0
  else
    let d1 := (Real.log (S / K) + (r + sigma ^ 2 / 2) * T) / (sigma * Real.sqrt T)
    let d2 := d1 - sigma * Real.sqrt T
    if isCall then
      S * normalCDF d1 - K * Real.exp (-(r * T)) * normalCDF d2
    else
      K * Real.exp (-(r * T)) * normalCDF (-d2) - S * normalCDF (-d1)

/-- The five Greeks transcribed from the specification's wording (§4.2),
for the non-degenerate case `T > 0`, `σ > 0`:
delta `Φ(d1)` (call) / `Φ(d1) - 1` (put); gamma `φ(d1)/(S·σ·√T)`;
vega `S·√T·φ(d1)` scaled by `1/100`; theta
`[-(S·φ(d1)·σ)/(2√T) - r·K·e^(-rT)·Φ(d2)] / 365` (call) resp.
`[-(S·φ(d1)·σ)/(2√T) + r·K·e^(-rT)·Φ(-d2)] / 365` (put); rho
`K·T·e^(-rT)·Φ(d2)/100` (call) / `-K·T·e^(-rT)·Φ(-d2)/100` (put). -/
def greeksSpec (S K r T sigma : ℝ) (isCall : Bool) : Greeks :=
  let d1 := (Real.log (S / K) + (r + sigma ^ 2 / 2) * T) / (sigma * Real.sqrt T)
  let d2 := d1 - sigma * Real.sqrt T
  if isCall then
    { delta := normalCDF d1
      gamma := normalPDF d1 / (S * sigma * Real.sqrt T)
      theta := (-(S * normalPDF d1 * sigma) / (2 * Real.sqrt T)
        - r * K * Real.exp (-(r * T)) * normalCDF d2) / 365
      vega := S * Real.sqrt T * normalPDF d1 * (1 / 100)
      rho := K * T * Real.exp (-(r * T)) * normalCDF d2 / 100 }
  else
    { delta := normalCDF d1 - 1
      gamma := normalPDF d1 / (S * sigma * Real.sqrt T)
      theta := (-(S * normalPDF d1 * sigma) / (2 * Real.sqrt T)
        + r * K * Real.exp (-(r * T)) * normalCDF (-d2)) / 365
      vega := S * Real.sqrt T * normalPDF d1 * (1 / 100)
      rho := -(K * T * Real.exp (-(r * T)) * normalCDF (-d2)) / 100 }

/-- Unscaled vega transcribed from the specification's wording (§4.3, step 2):
"the pricer's sensitivity to σ … full per-unit derivative", `S·√T·φ(d1)`,
degenerating to 0 when no time value remains. -/
def blackScholesVegaSpec (S K r T sigma : ℝ) : ℝ :=
  if T ≤ 0 then 0
  else
    S * Real.sqrt T *
      normalPDF ((Real.log (S / K) + (r + sigma ^ 2 / 2) * T) / (sigma * Real.sqrt T))

/-- Newton-Raphson iteration transcribed from the specification's wording
(§4.3, steps 2-7), with the clamp to `[0.001, 5.0]` written via `min`/`max`. -/
def ivIterSpec (S K r T : ℝ) (isCall : Bool) (marketPrice : ℝ) : ℕ → ℝ → ℝ
  | 0, sigma => sigma
  | fuel + 1, sigma =>
    let modelPrice := blackScholesPriceSpec S K r T sigma isCall
    let vega := blackScholesVegaSpec S K r T sigma
    if vega = 0 then sigma
    else
      let diff := marketPrice - modelPrice
      if |diff| < 0.0001 then sigma
      else
        ivIterSpec S K r T isCall marketPrice fuel (min 5 (max 0.001 (sigma + diff / vega)))

/-- Implied volatility transcribed from the specification's wording (§4.3):
initial guess `σ = 0.3`, at most 100 Newton-Raphson iterations. -/
def impliedVolatilitySpec (marketPrice S K r T : ℝ) (isCall : Bool) : ℝ :=
  ivIterSpec S K r T isCall marketPrice 100 0.3

/-- Time-to-expiry transcribed from the specification's wording (§4.4):
"(expiration timestamp − current time) / (365.25 days in seconds); if this is
≤ 0, substitute a tiny positive epsilon (0.0001 years)". -/
def timeToExpirySpec (expiration now : ℤ) : ℝ :=
  let T := ((expiration : ℝ) - (now : ℝ)) / (365.25 * 86400)
  if T ≤ 0 then 0.0001 else T

/-- The value of `d1` at the round-trip test parameters S=K=150, r=0.05,
T=0.25, as a function of sigma:
`d1 = (ln 1 + (0.05 + σ²/2)·0.25)/(σ·0.5) = 1/(40σ) + σ/4`. -/
def d1f (sigma : ℝ) : ℝ := 1 / (40 * sigma) + sigma / 4

/-- The value of `d2 = d1 - σ·√T` at the round-trip test parameters:
`d2 = 1/(40σ) - σ/4`. -/
def d2f (sigma : ℝ) : ℝ := 1 / (40 * sigma) - sigma / 4

/-- Sample contract: already expired and quoted with implied volatility 0
(as upstream data routinely reports for illiquid contracts). -/
def zeroIVContract : OptionContract :=
  { contractSymbol := ""
    strike := 100
    currency := ""
    lastPrice := 0
    change := 0
    percentChange := 0
    volume := 0
    openInterest := 0
    bid := 0
    ask := 0
    contractSize := ""
    expiration := 0
    lastTradeDate := 0
    impliedVolatility := 0
    inTheMoney := false }

end

/-- Source struct `RateLimiter` (retry.go).  `tokens`, `maxTokens` and
`refillRate` are `float64` in Go and `lastRefillTime` a `time.Time`; they are
embedded as rationals (timestamps in seconds).  The source struct carries no
mutex or other synchronisation primitive. -/
structure RateLimiter where
  tokens : ℚ
  maxTokens : ℚ
  refillRate : ℚ
  lastRefillTime : ℚ
deriving DecidableEq, Repr

/-- Source `NewRateLimiter` (retry.go); `now` stands for the `time.Now()`
read at construction. -/
def NewRateLimiter (requestsPerSecond : ℚ) (burst : ℤ) (now : ℚ) : RateLimiter :=
  { tokens := (burst : ℚ)
    maxTokens := (burst : ℚ)
    refillRate := requestsPerSecond
    lastRefillTime := now }

/-- Source method `(*RateLimiter).refill` (retry.go):
`rl.tokens = math.Min(rl.maxTokens, rl.tokens + elapsed*rl.refillRate)`,
with `elapsed = now.Sub(rl.lastRefillTime).Seconds()`. -/
def RateLimiter.refill (rl : RateLimiter) (now : ℚ) : RateLimiter :=
  { rl with
    tokens := min rl.maxTokens (rl.tokens + (now - rl.lastRefillTime) * rl.refillRate)
    lastRefillTime := now }

/-- The token deduction performed by source `(*RateLimiter).Wait` (retry.go)
when at least one token is available: `rl.tokens--`. -/
def RateLimiter.deduct (rl : RateLimiter) : RateLimiter :=
  { rl with tokens := rl.tokens - 1 }

/-- One atomic transition of the rate limiter state machine of
`(*RateLimiter).Wait` / `(*RateLimiter).refill` (retry.go): either a refill at
a clock reading `now` not earlier than the stored timestamp, or a successful
acquisition (the `rl.tokens >= 1` fast path of `Wait`, which deducts one
token). -/
inductive RLStep : RateLimiter → RateLimiter → Prop
  | refill (rl : RateLimiter) (now : ℚ) (h : rl.lastRefillTime ≤ now) :
      RLStep rl (rl.refill now)
  | acquire (rl : RateLimiter) (h : 1 ≤ rl.tokens) :
      RLStep rl rl.deduct

/-- States of the rate limiter reachable from the initial state produced by
`NewRateLimiter` by any sequence of refills and successful acquisitions. -/
inductive RLReachable (requestsPerSecond : ℚ) (burst : ℤ) (now0 : ℚ) :
    RateLimiter → Prop
  | init : RLReachable requestsPerSecond burst now0 (NewRateLimiter requestsPerSecond burst now0)
  | step {s s' : RateLimiter} :
      RLReachable requestsPerSecond burst now0 s → RLStep s s' →
      RLReachable requestsPerSecond burst now0 s'

/-- Source struct `RetryConfig` (retry.go).  Durations are embedded as
rationals (seconds); they influence only sleep lengths, not which value
`doWithRetry` returns. -/
structure RetryConfig where
  maxRetries : ℤ
  initialBackoff : ℚ
  maxBackoff : ℚ
  backoffFactor : ℚ
  jitter : ℚ
  retryOnStatus : List ℕ
deriving DecidableEq, Repr

/-- Source `DefaultRetryConfig` (retry.go). -/
def DefaultRetryConfig : RetryConfig :=
  { maxRetries := 3
    initialBackoff := 1
    maxBackoff := 30
    backoffFactor := 2
    jitter := 1 / 10
    retryOnStatus := [429, 500, 502, 503, 504] }

/-- Source `shouldRetry` (retry.go): linear scan of the retryable status list. -/
def shouldRetry (statusCode : ℕ) (retryOnStatus : List ℕ) : Bool :=
  retryOnStatus.contains statusCode

/-- Outcome of one `c.httpClient.Do(reqClone)` call inside `doWithRetry`
(retry.go): either a transport-level (connection) error or a response with a
status code. -/
inductive AttemptOutcome where
  | connError : AttemptOutcome
  | response (status : ℕ) : AttemptOutcome
deriving DecidableEq, Repr

/-- Result of source `(*Client).doWithRetry` (retry.go): either the wrapped
error `"request failed after %d retries: %w"` (carrying `config.MaxRetries`,
the number it formats) or a response handed back to the caller. -/
inductive RetryResult where
  | failure (retries : ℤ) : RetryResult
  | success (status : ℕ) : RetryResult
deriving DecidableEq, Repr

/-- The `for attempt := 0; attempt <= config.MaxRetries; attempt++` loop of
source `doWithRetry` (retry.go), with the transport abstracted as a map from
attempt index to outcome and the remaining iterations as fuel. -/
def doWithRetryFrom (config : RetryConfig) (outcomes : ℕ → AttemptOutcome) :
    ℕ → ℕ → RetryResult
  | 0, _ => .failure config.maxRetries
  | fuel + 1, attempt =>
    match outcomes attempt with
    | .connError =>
      if (attempt : ℤ) < config.maxRetries then
        doWithRetryFrom config outcomes fuel (attempt + 1)
      else
        .failure config.maxRetries
    | .response status =>
      if shouldRetry status config.retryOnStatus ∧ (attempt : ℤ) < config.maxRetries then
        doWithRetryFrom config outcomes fuel (attempt + 1)
      else
        .success status

/-- Source `(*Client).doWithRetry` (retry.go): runs the retry loop for the
`config.MaxRetries + 1` admitted attempts, starting at attempt 0. -/
def doWithRetry (config : RetryConfig) (outcomes : ℕ → AttemptOutcome) : RetryResult :=
  doWithRetryFrom config outcomes (config.maxRetries + 1).toNat 0

/-- Program counter of one goroutine executing the unsynchronised fast path of
`(*RateLimiter).Wait` (retry.go): `0` = about to evaluate `rl.tokens >= 1`,
`1` = test passed, about to execute `rl.tokens--`, `2` = returned success,
`3` = test failed (the goroutine would go on to wait). -/
abbrev RacePc := ℕ

/-- Shared-memory state of two goroutines racing through the fast path of
`(*RateLimiter).Wait` (retry.go).  The source protects `tokens` with no mutex,
so each primitive read/test and read-modify-write on `tokens` is a separate
atomic event that a scheduler may interleave. -/
structure RaceState where
  tokens : ℚ
  pc1 : RacePc
  pc2 : RacePc
deriving DecidableEq, Repr

/-- One atomic event of a single goroutine in the fast path of `Wait`:
at pc 0 it evaluates `rl.tokens >= 1` on the shared counter; at pc 1 it
executes `rl.tokens--`. -/
def raceThreadStep (tokens : ℚ) (pc : RacePc) : ℚ × RacePc :=
  match pc with
  | 0 => if 1 ≤ tokens then (tokens, 1) else (tokens, 3)
  | 1 => (tokens - 1, 2)
  | pc => (tokens, pc)

/-- Scheduler step: let goroutine 1 (`false`) or goroutine 2 (`true`) perform
its next atomic event on the shared state. -/
def raceStep (s : RaceState) (tid : Bool) : RaceState :=
  if tid then
    let r := raceThreadStep s.tokens s.pc2
    { s with tokens := r.1, pc2 := r.2 }
  else
    let r := raceThreadStep s.tokens s.pc1
    { s with tokens := r.1, pc1 := r.2 }

/-- Run a finite schedule (list of goroutine choices) over the shared state. -/
def runRace (s : RaceState) : List Bool → RaceState
  | [] => s
  | tid :: rest => runRace (raceStep s tid) rest

end Gotick

namespace Gotick

open MeasureTheory intervalIntegral

lemma gaussian_continuous : Continuous fun t : ℝ => Real.exp (-t ^ 2) := by
  continuity

lemma gaussian_intervalIntegrable (a b : ℝ) :
    IntervalIntegrable (fun t : ℝ => Real.exp (-t ^ 2)) volume a b :=
  gaussian_continuous.intervalIntegrable a b

lemma sqrt_two_pi_pos : 0 < Real.sqrt (2 * Real.pi) :=
  Real.sqrt_pos.mpr (by positivity)

lemma normalPDF_pos (x : ℝ) : 0 < normalPDF x :=
  div_pos (Real.exp_pos _) sqrt_two_pi_pos

lemma two_le_sqrt_two_pi : 2 ≤ Real.sqrt (2 * Real.pi) := by
  have h4 : (4 : ℝ) ≤ 2 * Real.pi := by nlinarith [Real.pi_gt_three]
  have : Real.sqrt 4 ≤ Real.sqrt (2 * Real.pi) := Real.sqrt_le_sqrt h4
  calc (2 : ℝ) = Real.sqrt 4 := by
        rw [show (4 : ℝ) = 2 ^ 2 by norm_num, Real.sqrt_sq (by norm_num : (0:ℝ) ≤ 2)]
    _ ≤ Real.sqrt (2 * Real.pi) := this

lemma normalPDF_le_half (x : ℝ) : normalPDF x ≤ 1 / 2 := by
  have hexp : Real.exp (-x * x / 2) ≤ 1 := by
    rw [Real.exp_le_one_iff]
    nlinarith [mul_self_nonneg x]
  unfold normalPDF
  calc Real.exp (-x * x / 2) / Real.sqrt (2 * Real.pi) ≤ 1 / Real.sqrt (2 * Real.pi) := by
        gcongr
    _ ≤ 1 / 2 := by
        apply one_div_le_one_div_of_le (by norm_num) two_le_sqrt_two_pi

lemma erf_nonneg {x : ℝ} (hx : 0 ≤ x) : 0 ≤ erf x := by
  apply mul_nonneg (by positivity)
  exact intervalIntegral.integral_nonneg hx fun t _ => (Real.exp_pos _).le

lemma gaussian_integral_le (x : ℝ) (hx : 0 ≤ x) :
    (∫ t in (0:ℝ)..x, Real.exp (-t ^ 2)) ≤ Real.sqrt Real.pi / 2 := by
  rw [intervalIntegral.integral_of_le hx]
  have hIoi : (∫ t in Set.Ioi (0:ℝ), Real.exp (-t ^ 2)) = Real.sqrt Real.pi / 2 := by
    have h := integral_gaussian_Ioi 1
    simpa [neg_one_mul] using h
  rw [← hIoi]
  apply setIntegral_mono_set
  · have h := (integrable_exp_neg_mul_sq (one_pos)).integrableOn (s := Set.Ioi (0:ℝ))
    simpa [neg_one_mul] using h
  · filter_upwards with t using (Real.exp_pos _).le
  · exact HasSubset.Subset.eventuallyLE Set.Ioc_subset_Ioi_self

lemma erf_le_one (x : ℝ) : erf x ≤ 1 := by
  rcases le_or_lt x 0 with hx | hx
  · have hint : (∫ t in (0:ℝ)..x, Real.exp (-t ^ 2)) ≤ 0 := by
      rw [intervalIntegral.integral_symm]
      simp only [neg_nonpos]
      exact intervalIntegral.integral_nonneg hx fun t _ => (Real.exp_pos _).le
    have : erf x ≤ 0 :=
      mul_nonpos_of_nonneg_of_nonpos (by positivity) hint
    linarith
  · have hb := gaussian_integral_le x hx.le
    have hπ : 0 < Real.sqrt Real.pi := Real.sqrt_pos.mpr Real.pi_pos
    calc erf x ≤ 2 / Real.sqrt Real.pi * (Real.sqrt Real.pi / 2) := by
          apply mul_le_mul_of_nonneg_left hb (by positivity)
      _ = 1 := by field_simp

lemma gaussian_integral_neg (x : ℝ) :
    (∫ t in (0:ℝ)..(-x), Real.exp (-t ^ 2)) = -∫ t in (0:ℝ)..x, Real.exp (-t ^ 2) := by
  have h1 := intervalIntegral.integral_comp_neg (a := (-x)) (b := (0:ℝ))
    (f := fun t => Real.exp (-t ^ 2))
  simp only [neg_sq, neg_zero, neg_neg] at h1
  rw [intervalIntegral.integral_symm, h1]

lemma erf_neg (x : ℝ) : erf (-x) = -erf x := by
  unfold erf
  rw [gaussian_integral_neg, mul_neg]

lemma erf_ge_neg_one (x : ℝ) : -1 ≤ erf x := by
  have h := erf_le_one (-x)
  rw [erf_neg] at h
  linarith

lemma normalCDF_nonneg (x : ℝ) : 0 ≤ normalCDF x := by
  have h := erf_ge_neg_one (x / Real.sqrt 2)
  unfold normalCDF
  nlinarith

lemma normalCDF_ge_half {x : ℝ} (hx : 0 ≤ x) : 1 / 2 ≤ normalCDF x := by
  have h : 0 ≤ erf (x / Real.sqrt 2) := erf_nonneg (by positivity)
  unfold normalCDF
  nlinarith

lemma spec_vega_pos (S T a : ℝ) (hS : 0 < S) (hT : 0 < T) :
    0 < S * Real.sqrt T * normalPDF a * (1 / 100) :=
  mul_pos (mul_pos (mul_pos hS (Real.sqrt_pos.mpr hT)) (normalPDF_pos a)) (by norm_num)

lemma spec_theta_call_neg (S K r T sigma a b : ℝ)
    (hS : 0 < S) (hK : 0 < K) (hT : 0 < T) (hsig : 0 < sigma) (hr : 0 ≤ r) :
    (-(S * normalPDF a * sigma) / (2 * Real.sqrt T)
      - r * K * Real.exp (-(r * T)) * normalCDF b) / 365 < 0 := by
  have hsq : 0 < Real.sqrt T := Real.sqrt_pos.mpr hT
  have h1 : 0 < S * normalPDF a * sigma := mul_pos (mul_pos hS (normalPDF_pos a)) hsig
  have hterm1 : -(S * normalPDF a * sigma) / (2 * Real.sqrt T) < 0 :=
    div_neg_of_neg_of_pos (by linarith) (by linarith)
  have hterm2 : 0 ≤ r * K * Real.exp (-(r * T)) * normalCDF b :=
    mul_nonneg (mul_nonneg (mul_nonneg hr hK.le) (Real.exp_pos _).le) (normalCDF_nonneg b)
  exact div_neg_of_neg_of_pos (by linarith) (by norm_num)

lemma spec_theta_put_neg (S K r T sigma a b : ℝ)
    (hS : 0 < S) (hK : 0 < K) (hT : 0 < T) (hsig : 0 < sigma) (hr : r ≤ 0) :
    (-(S * normalPDF a * sigma) / (2 * Real.sqrt T)
      + r * K * Real.exp (-(r * T)) * normalCDF b) / 365 < 0 := by
  have hsq : 0 < Real.sqrt T := Real.sqrt_pos.mpr hT
  have h1 : 0 < S * normalPDF a * sigma := mul_pos (mul_pos hS (normalPDF_pos a)) hsig
  have hterm1 : -(S * normalPDF a * sigma) / (2 * Real.sqrt T) < 0 :=
    div_neg_of_neg_of_pos (by linarith) (by linarith)
  have h2 : 0 ≤ K * Real.exp (-(r * T)) * normalCDF b :=
    mul_nonneg (mul_nonneg hK.le (Real.exp_pos _).le) (normalCDF_nonneg b)
  have hterm2 : r * (K * Real.exp (-(r * T)) * normalCDF b) ≤ 0 :=
    mul_nonpos_of_nonpos_of_nonneg hr h2
  have hre : r * K * Real.exp (-(r * T)) * normalCDF b
      = r * (K * Real.exp (-(r * T)) * normalCDF b) := by ring
  rw [hre]
  exact div_neg_of_neg_of_pos (by linarith) (by norm_num)

lemma hasDerivAt_gaussianIntegral (y : ℝ) :
    HasDerivAt (fun u => ∫ t in (0:ℝ)..u, Real.exp (-t ^ 2)) (Real.exp (-y ^ 2)) y :=
  intervalIntegral.integral_hasDerivAt_right (gaussian_intervalIntegrable 0 y)
    (gaussian_continuous.stronglyMeasurableAtFilter _ _)
    gaussian_continuous.continuousAt

lemma hasDerivAt_erf (y : ℝ) :
    HasDerivAt erf (2 / Real.sqrt Real.pi * Real.exp (-y ^ 2)) y := by
  have h := (hasDerivAt_gaussianIntegral y).const_mul (2 / Real.sqrt Real.pi)
  exact h

lemma hasDerivAt_normalCDF (x : ℝ) : HasDerivAt normalCDF (normalPDF x) x := by
  have hdiv : HasDerivAt (fun u : ℝ => u / Real.sqrt 2) (1 / Real.sqrt 2) x := by
    simpa using (hasDerivAt_id x).div_const (Real.sqrt 2)
  have herf := (hasDerivAt_erf (x / Real.sqrt 2)).comp x hdiv
  have hcdf := (herf.const_add 1).const_mul (0.5 : ℝ)
  have hval : (0.5 : ℝ) * (2 / Real.sqrt Real.pi * Real.exp (-(x / Real.sqrt 2) ^ 2)
      * (1 / Real.sqrt 2)) = normalPDF x := by
    have hsq : (x / Real.sqrt 2) ^ 2 = x * x / 2 := by
      rw [div_pow, Real.sq_sqrt (by norm_num : (0:ℝ) ≤ 2)]
      ring
    rw [hsq]
    unfold normalPDF
    rw [Real.sqrt_mul (by norm_num : (0:ℝ) ≤ 2)]
    have hπ : 0 < Real.sqrt Real.pi := Real.sqrt_pos.mpr Real.pi_pos
    have h2 : 0 < Real.sqrt 2 := by positivity
    field_simp
    ring
  rw [← hval]
  exact hcdf

lemma continuous_normalCDF : Continuous normalCDF := by
  rw [continuous_iff_continuousAt]
  exact fun x => (hasDerivAt_normalCDF x).continuousAt

lemma normalCDF_slope_mem {A B : ℝ} (p q : ℝ) (hpA : A ≤ p) (hpB : p ≤ B)
    (hqA : A ≤ q) (hqB : q ≤ B) :
    ∃ c, A ≤ c ∧ c ≤ B ∧ normalCDF q - normalCDF p = normalPDF c * (q - p) := by
  rcases lt_trichotomy p q with hlt | heq | hgt
  · obtain ⟨c, hc, hceq⟩ := exists_hasDerivAt_eq_slope normalCDF normalPDF hlt
      continuous_normalCDF.continuousOn (fun x _ => hasDerivAt_normalCDF x)
    refine ⟨c, by linarith [hc.1], by linarith [hc.2], ?_⟩
    rw [hceq, div_mul_cancel₀ _ (sub_ne_zero.2 hlt.ne')]
  · exact ⟨p, hpA, hpB, by rw [heq]; ring⟩
  · obtain ⟨c, hc, hceq⟩ := exists_hasDerivAt_eq_slope normalCDF normalPDF hgt
      continuous_normalCDF.continuousOn (fun x _ => hasDerivAt_normalCDF x)
    refine ⟨c, by linarith [hc.1], by linarith [hc.2], ?_⟩
    have h1 : normalCDF p - normalCDF q = normalPDF c * (p - q) := by
      rw [hceq, div_mul_cancel₀ _ (sub_ne_zero.2 hgt.ne')]
    nlinarith [h1]

lemma normalPDF_antitone {x y : ℝ} (hx : 0 ≤ x) (hxy : x ≤ y) :
    normalPDF y ≤ normalPDF x := by
  have hexp : Real.exp (-y * y / 2) ≤ Real.exp (-x * x / 2) := by
    apply Real.exp_le_exp.mpr
    nlinarith
  unfold normalPDF
  exact div_le_div_of_nonneg_right hexp sqrt_two_pi_pos.le |>.trans_eq rfl

lemma sqrt_two_pi_lb : 2.50662 ≤ Real.sqrt (2 * Real.pi) := by
  rw [show (2.50662:ℝ) = Real.sqrt (2.50662 ^ 2) from (Real.sqrt_sq (by norm_num)).symm]
  apply Real.sqrt_le_sqrt
  nlinarith [Real.pi_gt_d6]

lemma sqrt_two_pi_ub : Real.sqrt (2 * Real.pi) ≤ 2.50663 := by
  rw [show (2.50663:ℝ) = Real.sqrt (2.50663 ^ 2) from (Real.sqrt_sq (by norm_num)).symm]
  apply Real.sqrt_le_sqrt
  nlinarith [Real.pi_lt_d6]

lemma normalPDF_ge_of (x q : ℝ) (h : q * 2.50663 ≤ 1 - x * x / 2) : q ≤ normalPDF x := by
  have h2 := sqrt_two_pi_ub
  unfold normalPDF
  rw [le_div_iff sqrt_two_pi_pos]
  rcases le_or_lt 0 q with hq | hq
  · calc q * Real.sqrt (2 * Real.pi) ≤ q * 2.50663 := by nlinarith
      _ ≤ 1 - x * x / 2 := h
      _ ≤ Real.exp (-x * x / 2) := by linarith [Real.add_one_le_exp (-x * x / 2)]
  · calc q * Real.sqrt (2 * Real.pi) ≤ 0 := by nlinarith [sqrt_two_pi_pos]
      _ ≤ Real.exp (-x * x / 2) := (Real.exp_pos _).le

lemma normalPDF_le_of (x q : ℝ) (hq : 0 ≤ q) (h : 1 ≤ q * 2.50662 * (1 + x * x / 2)) :
    normalPDF x ≤ q := by
  have hy : 0 ≤ x * x := mul_self_nonneg x
  have h1y : (0:ℝ) < 1 + x * x / 2 := by linarith
  have hexp : Real.exp (-x * x / 2) ≤ 1 / (1 + x * x / 2) := by
    have h2 := Real.add_one_le_exp (x * x / 2)
    have h3 : Real.exp (-x * x / 2) = 1 / Real.exp (x * x / 2) := by
      rw [show -x * x / 2 = -(x * x / 2) by ring, Real.exp_neg, inv_eq_one_div]
    rw [h3]
    exact one_div_le_one_div_of_le h1y (by linarith)
  have hsl := sqrt_two_pi_lb
  unfold normalPDF
  rw [div_le_iff sqrt_two_pi_pos]
  calc Real.exp (-x * x / 2) ≤ 1 / (1 + x * x / 2) := hexp
    _ ≤ q * 2.50662 := by
        rw [div_le_iff h1y]
        linarith
    _ ≤ q * Real.sqrt (2 * Real.pi) := by nlinarith

lemma exp_neg_inv80_lb : (0.9875 : ℝ) ≤ Real.exp (-(1/80)) := by
  linarith [Real.add_one_le_exp (-(1/80) : ℝ)]

lemma exp_neg_inv80_ub : Real.exp (-(1/80) : ℝ) ≤ 0.98766 := by
  have h2 := Real.add_one_le_exp ((1/80) : ℝ)
  have h3 : Real.exp (-(1/80) : ℝ) = 1 / Real.exp (1/80) := by
    rw [Real.exp_neg, inv_eq_one_div]
  rw [h3]
  calc 1 / Real.exp (1/80) ≤ 1 / (1 + 1/80) :=
        one_div_le_one_div_of_le (by norm_num) (by linarith)
    _ ≤ 0.98766 := by norm_num

lemma sqrt_quarter : Real.sqrt 0.25 = 0.5 := by
  rw [show (0.25:ℝ) = 0.5 ^ 2 by norm_num, Real.sqrt_sq (by norm_num)]

lemma bs_price_closed (σ : ℝ) (hσ : 0 < σ) :
    blackScholesPrice 150 150 0.05 0.25 σ true
      = 150 * normalCDF (d1f σ) - 150 * Real.exp (-(1/80)) * normalCDF (d2f σ) := by
  have hσ' : σ ≠ 0 := hσ.ne'
  simp only [blackScholesPrice]
  rw [if_neg (by norm_num : ¬(0.25:ℝ) ≤ 0), if_pos trivial]
  have hd1 : (Real.log (150 / 150) + (0.05 + σ * σ / 2) * 0.25) / (σ * Real.sqrt 0.25)
      = d1f σ := by
    rw [show ((150:ℝ) / 150) = 1 by norm_num, Real.log_one, sqrt_quarter]
    unfold d1f
    field_simp
    ring
  have hd2 : d1f σ - σ * Real.sqrt 0.25 = d2f σ := by
    rw [sqrt_quarter]
    unfold d1f d2f
    field_simp
    ring
  rw [hd1, hd2, show ((-0.05 : ℝ) * 0.25) = -(1/80) by norm_num]

lemma bs_vega_closed (σ : ℝ) (hσ : 0 < σ) :
    blackScholesVega 150 150 0.05 0.25 σ = 75 * normalPDF (d1f σ) := by
  have hσ' : σ ≠ 0 := hσ.ne'
  simp only [blackScholesVega]
  rw [if_neg (by norm_num : ¬(0.25:ℝ) ≤ 0)]
  have hd1 : (Real.log (150 / 150) + (0.05 + σ * σ / 2) * 0.25) / (σ * Real.sqrt 0.25)
      = d1f σ := by
    rw [show ((150:ℝ) / 150) = 1 by norm_num, Real.log_one, sqrt_quarter]
    unfold d1f
    field_simp
    ring
  rw [hd1, sqrt_quarter]
  norm_num

lemma phi_13_80_lb : (0.39366:ℝ) ≤ normalPDF (13/80) :=
  normalPDF_ge_of _ _ (by norm_num)

lemma phi_13_80_ub : normalPDF (13/80 : ℝ) ≤ 0.39375 :=
  normalPDF_le_of _ _ (by norm_num) (by norm_num)

lemma phi_19_120_lb : (0.39390:ℝ) ≤ normalPDF (19/120) :=
  normalPDF_ge_of _ _ (by norm_num)

lemma phi_19_120_ub : normalPDF (19/120 : ℝ) ≤ 0.39401 :=
  normalPDF_le_of _ _ (by norm_num) (by norm_num)

lemma phi_3_80_lb : (0.39864:ℝ) ≤ normalPDF (3/80) :=
  normalPDF_ge_of _ _ (by norm_num)

lemma phi_1_120_ub : normalPDF (1/120 : ℝ) ≤ 0.39895 :=
  normalPDF_le_of _ _ (by norm_num) (by norm_num)

lemma phi_16252_lb : (0.39366:ℝ) ≤ normalPDF 0.16252 :=
  normalPDF_ge_of _ _ (by norm_num)

lemma phi_16248_ub : normalPDF (0.16248 : ℝ) ≤ 0.39376 :=
  normalPDF_le_of _ _ (by norm_num) (by norm_num)

lemma phi_3758_lb : (0.39864:ℝ) ≤ normalPDF 0.03758 :=
  normalPDF_ge_of _ _ (by norm_num)

lemma phi_3742_ub : normalPDF (0.03742 : ℝ) ≤ 0.39895 :=
  normalPDF_le_of _ _ (by norm_num) (by norm_num)

lemma d1f_rewrite (σ : ℝ) (hσ : σ ≠ 0) : d1f σ = (1 + 10 * σ ^ 2) / (40 * σ) := by
  unfold d1f
  field_simp
  ring

lemma d2f_rewrite (σ : ℝ) (hσ : σ ≠ 0) : d2f σ = (1 - 10 * σ ^ 2) / (40 * σ) := by
  unfold d2f
  field_simp
  ring

lemma d1f_J {σ : ℝ} (h1 : 0.2499 ≤ σ) (h2 : σ ≤ 0.2501) :
    0.16248 ≤ d1f σ ∧ d1f σ ≤ 0.16252 := by
  have hσ : (0:ℝ) < σ := by linarith
  have h40 : (0:ℝ) < 40 * σ := by linarith
  rw [d1f_rewrite σ hσ.ne']
  constructor
  · rw [le_div_iff h40]
    nlinarith [sq_nonneg (σ - 0.2501), sq_nonneg (σ - 0.2499)]
  · rw [div_le_iff h40]
    nlinarith [mul_nonneg (sub_nonneg.2 h1) (sub_nonneg.2 h2), sq_nonneg (σ - 0.25)]

lemma d2f_J {σ : ℝ} (h1 : 0.2499 ≤ σ) (h2 : σ ≤ 0.2501) :
    0.03742 ≤ d2f σ ∧ d2f σ ≤ 0.03758 := by
  have hσ : (0:ℝ) < σ := by linarith
  have h40 : (0:ℝ) < 40 * σ := by linarith
  rw [d2f_rewrite σ hσ.ne']
  constructor
  · rw [le_div_iff h40]
    nlinarith [mul_nonneg (sub_nonneg.2 h1) (sub_nonneg.2 h2), sq_nonneg (σ - 0.25)]
  · rw [div_le_iff h40]
    nlinarith [sq_nonneg (σ - 0.2499), sq_nonneg (σ - 0.2501)]

lemma d1f_quarter : d1f (1/4) = 13/80 := by
  unfold d1f
  norm_num

lemma d2f_quarter : d2f (1/4) = 3/80 := by
  unfold d2f
  norm_num

lemma d1f_factored (σ : ℝ) (hσ : σ ≠ 0) :
    d1f (1/4) - d1f σ = (1/4 - σ) * (1/4 - 1/(10*σ)) := by
  unfold d1f
  field_simp
  ring

lemma d2f_factored (σ : ℝ) (hσ : σ ≠ 0) :
    d2f (1/4) - d2f σ = (1/4 - σ) * (-(1/4) - 1/(10*σ)) := by
  unfold d2f
  field_simp
  ring

lemma inv10σ_J {σ : ℝ} (h1 : 0.2499 ≤ σ) (h2 : σ ≤ 0.2501) :
    0.39984 ≤ 1/(10*σ) ∧ 1/(10*σ) ≤ 0.40017 := by
  have h10 : (0:ℝ) < 10 * σ := by linarith
  constructor
  · rw [le_div_iff h10]
    nlinarith
  · rw [div_le_iff h10]
    nlinarith

set_option maxHeartbeats 1600000 in
lemma newton_step_in_J {σ : ℝ} (h1 : 0.2499 ≤ σ) (h2 : σ ≤ 0.2501) :
    0.2499 ≤ σ + (blackScholesPrice 150 150 0.05 0.25 0.25 true
        - blackScholesPrice 150 150 0.05 0.25 σ true)
        / blackScholesVega 150 150 0.05 0.25 σ
    ∧ σ + (blackScholesPrice 150 150 0.05 0.25 0.25 true
        - blackScholesPrice 150 150 0.05 0.25 σ true)
        / blackScholesVega 150 150 0.05 0.25 σ ≤ 0.2501 := by
  have hσ : (0:ℝ) < σ := by linarith
  rw [bs_price_closed σ hσ, bs_price_closed 0.25 (by norm_num), bs_vega_closed σ hσ,
    show (0.25:ℝ) = 1/4 by norm_num]
  obtain ⟨hd1lo, hd1hi⟩ := d1f_J h1 h2
  obtain ⟨hd2lo, hd2hi⟩ := d2f_J h1 h2
  obtain ⟨c1, hc1A, hc1B, hc1⟩ := normalCDF_slope_mem (A := 0.16248) (B := 0.16252)
    (d1f σ) (d1f (1/4)) hd1lo hd1hi (by rw [d1f_quarter]; norm_num)
    (by rw [d1f_quarter]; norm_num)
  obtain ⟨c2, hc2A, hc2B, hc2⟩ := normalCDF_slope_mem (A := 0.03742) (B := 0.03758)
    (d2f σ) (d2f (1/4)) hd2lo hd2hi (by rw [d2f_quarter]; norm_num)
    (by rw [d2f_quarter]; norm_num)
  have hv1lo : (0.39366:ℝ) ≤ normalPDF c1 :=
    le_trans phi_16252_lb (normalPDF_antitone (le_trans (by norm_num) hc1A) hc1B)
  have hv1hi : normalPDF c1 ≤ 0.39376 :=
    le_trans (normalPDF_antitone (by norm_num) hc1A) phi_16248_ub
  have hv2lo : (0.39864:ℝ) ≤ normalPDF c2 :=
    le_trans phi_3758_lb (normalPDF_antitone (le_trans (by norm_num) hc2A) hc2B)
  have hv2hi : normalPDF c2 ≤ 0.39895 :=
    le_trans (normalPDF_antitone (by norm_num) hc2A) phi_3742_ub
  have hv0lo : (0.39366:ℝ) ≤ normalPDF (d1f σ) :=
    le_trans phi_16252_lb (normalPDF_antitone (le_trans (by norm_num) hd1lo) hd1hi)
  have hv0hi : normalPDF (d1f σ) ≤ 0.39376 :=
    le_trans (normalPDF_antitone (by norm_num) hd1lo) phi_16248_ub
  have hE1 := exp_neg_inv80_lb
  have hE2 := exp_neg_inv80_ub
  have hEpos : (0:ℝ) < Real.exp (-(1/80)) := Real.exp_pos _
  have hf1 := d1f_factored σ hσ.ne'
  have hf2 := d2f_factored σ hσ.ne'
  obtain ⟨hu1, hu2⟩ := inv10σ_J h1 h2
  -- the numerator of the Newton step equals (1/4 - σ) * M
  have hnum : 150 * normalCDF (d1f (1/4))
        - 150 * Real.exp (-(1/80)) * normalCDF (d2f (1/4))
        - (150 * normalCDF (d1f σ) - 150 * Real.exp (-(1/80)) * normalCDF (d2f σ))
      = (1/4 - σ) * (150 * normalPDF c1 * (1/4 - 1/(10*σ))
        + 150 * Real.exp (-(1/80)) * normalPDF c2 * (1/4 + 1/(10*σ))) := by
    linear_combination 150 * hc1 + 150 * normalPDF c1 * hf1
      - 150 * Real.exp (-(1/80)) * hc2
      - 150 * Real.exp (-(1/80)) * normalPDF c2 * hf2
  rw [hnum]
  -- interval bounds for M
  have hP1 : (0.14984:ℝ) ≤ 1/(10*σ) - 1/4 := by linarith
  have hP2 : 1/(10*σ) - 1/4 ≤ 0.15017 := by linarith
  have hR1 : (0.64984:ℝ) ≤ 1/4 + 1/(10*σ) := by linarith
  have hR2 : 1/4 + 1/(10*σ) ≤ 0.65017 := by linarith
  have hprod1lo : (0.39366:ℝ) * 0.14984 ≤ normalPDF c1 * (1/(10*σ) - 1/4) :=
    mul_le_mul hv1lo hP1 (by norm_num) (normalPDF_pos c1).le
  have hprod1hi : normalPDF c1 * (1/(10*σ) - 1/4) ≤ 0.39376 * 0.15017 :=
    mul_le_mul hv1hi hP2 (by linarith) (by norm_num)
  have hEv2lo : (0.9875:ℝ) * 0.39864 ≤ Real.exp (-(1/80)) * normalPDF c2 :=
    mul_le_mul hE1 hv2lo (by norm_num) hEpos.le
  have hEv2hi : Real.exp (-(1/80)) * normalPDF c2 ≤ 0.98766 * 0.39895 :=
    mul_le_mul hE2 hv2hi (normalPDF_pos c2).le (by norm_num)
  have hprod2lo : ((0.9875:ℝ) * 0.39864) * 0.64984
      ≤ (Real.exp (-(1/80)) * normalPDF c2) * (1/4 + 1/(10*σ)) :=
    mul_le_mul hEv2lo hR1 (by norm_num)
      (mul_nonneg hEpos.le (normalPDF_pos c2).le)
  have hprod2hi : (Real.exp (-(1/80)) * normalPDF c2) * (1/4 + 1/(10*σ))
      ≤ ((0.98766:ℝ) * 0.39895) * 0.65017 :=
    mul_le_mul hEv2hi hR2 (by linarith) (by norm_num)
  set M := 150 * normalPDF c1 * (1/4 - 1/(10*σ))
    + 150 * Real.exp (-(1/80)) * normalPDF c2 * (1/4 + 1/(10*σ)) with hMdef
  have hMlo : (29.5024:ℝ) ≤ M := by
    rw [hMdef]
    nlinarith [hprod1hi, hprod2lo]
  have hMhi : M ≤ 29.5798 := by
    rw [hMdef]
    nlinarith [hprod1lo, hprod2hi]
  set V := 75 * normalPDF (d1f σ) with hVdef
  have hVlo : (29.5245:ℝ) ≤ V := by rw [hVdef]; linarith
  have hVhi : V ≤ 29.532 := by rw [hVdef]; linarith
  have hVpos : (0:ℝ) < V := by linarith
  -- lower bound
  constructor
  · have hkey : 0 ≤ (σ - 0.2499) * V + (1/4 - σ) * M := by
      nlinarith [mul_le_mul_of_nonneg_left (show (-0.0553:ℝ) ≤ V - M by linarith)
        (show (0:ℝ) ≤ σ - 0.2499 by linarith)]
    have hiden : σ + (1/4 - σ) * M / V - 0.2499
        = ((σ - 0.2499) * V + (1/4 - σ) * M) / V := by
      field_simp
      ring
    have := div_nonneg hkey hVpos.le
    linarith [hiden ▸ this]
  · have hkey : 0 ≤ (0.2501 - σ) * V - (1/4 - σ) * M := by
      nlinarith [mul_le_mul_of_nonneg_left (show (-0.0553:ℝ) ≤ V - M by linarith)
        (show (0:ℝ) ≤ 0.2501 - σ by linarith)]
    have hiden : 0.2501 - (σ + (1/4 - σ) * M / V)
        = ((0.2501 - σ) * V - (1/4 - σ) * M) / V := by
      field_simp
      ring
    have := div_nonneg hkey hVpos.le
    linarith [hiden ▸ this]

lemma d1f_03 : d1f 0.3 = 19/120 := by
  unfold d1f
  norm_num

lemma d2f_03 : d2f 0.3 = 1/120 := by
  unfold d2f
  norm_num

set_option maxHeartbeats 1600000 in
lemma diff0_V0_bounds :
    (-1.478 ≤ blackScholesPrice 150 150 0.05 0.25 0.25 true
        - blackScholesPrice 150 150 0.05 0.25 0.3 true)
    ∧ (blackScholesPrice 150 150 0.05 0.25 0.25 true
        - blackScholesPrice 150 150 0.05 0.25 0.3 true ≤ -1.4759)
    ∧ (29.5425 ≤ blackScholesVega 150 150 0.05 0.25 0.3)
    ∧ (blackScholesVega 150 150 0.05 0.25 0.3 ≤ 29.55075) := by
  rw [bs_price_closed 0.3 (by norm_num), bs_price_closed 0.25 (by norm_num),
    bs_vega_closed 0.3 (by norm_num), show (0.25:ℝ) = 1/4 by norm_num,
    d1f_quarter, d2f_quarter, d1f_03, d2f_03]
  obtain ⟨c1, hc1A, hc1B, hc1⟩ := normalCDF_slope_mem (A := 19/120) (B := 13/80)
    (19/120) (13/80) le_rfl (by norm_num) (by norm_num) le_rfl
  obtain ⟨c2, hc2A, hc2B, hc2⟩ := normalCDF_slope_mem (A := 1/120) (B := 3/80)
    (1/120) (3/80) le_rfl (by norm_num) (by norm_num) le_rfl
  have hv1lo : (0.39366:ℝ) ≤ normalPDF c1 :=
    le_trans phi_13_80_lb (normalPDF_antitone (le_trans (by norm_num) hc1A) hc1B)
  have hv1hi : normalPDF c1 ≤ 0.39401 :=
    le_trans (normalPDF_antitone (by norm_num) hc1A) phi_19_120_ub
  have hv2lo : (0.39864:ℝ) ≤ normalPDF c2 :=
    le_trans phi_3_80_lb (normalPDF_antitone (le_trans (by norm_num) hc2A) hc2B)
  have hv2hi : normalPDF c2 ≤ 0.39895 :=
    le_trans (normalPDF_antitone (by norm_num) hc2A) phi_1_120_ub
  have hE1 := exp_neg_inv80_lb
  have hE2 := exp_neg_inv80_ub
  have hEpos : (0:ℝ) < Real.exp (-(1/80)) := Real.exp_pos _
  have hEv2lo : (0.9875:ℝ) * 0.39864 ≤ Real.exp (-(1/80)) * normalPDF c2 :=
    mul_le_mul hE1 hv2lo (by norm_num) hEpos.le
  have hEv2hi : Real.exp (-(1/80)) * normalPDF c2 ≤ 0.98766 * 0.39895 :=
    mul_le_mul hE2 hv2hi (normalPDF_pos c2).le (by norm_num)
  refine ⟨?_, ?_, ?_, ?_⟩
  · nlinarith [hc1, hc2, hEv2lo, hEv2hi, hv1lo, hv1hi]
  · nlinarith [hc1, hc2, hEv2lo, hEv2hi, hv1lo, hv1hi]
  · linarith [phi_19_120_lb]
  · linarith [phi_19_120_ub]

lemma ivIter_succ (S K r T : ℝ) (c : Bool) (m : ℝ) (n : ℕ) (σ : ℝ) :
    ivIter S K r T c m (n + 1) σ =
      if blackScholesVega S K r T σ = 0 then σ
      else if |m - blackScholesPrice S K r T σ c| < 0.0001 then σ
      else ivIter S K r T c m n
        (if (if σ + (m - blackScholesPrice S K r T σ c) / blackScholesVega S K r T σ < 0.001
              then (0.001:ℝ)
              else σ + (m - blackScholesPrice S K r T σ c) / blackScholesVega S K r T σ) > 5
          then (5:ℝ)
          else if σ + (m - blackScholesPrice S K r T σ c) / blackScholesVega S K r T σ < 0.001
            then (0.001:ℝ)
            else σ + (m - blackScholesPrice S K r T σ c) / blackScholesVega S K r T σ) := rfl

lemma ivIter_stays_in_J (fuel : ℕ) :
    ∀ σ : ℝ, 0.2499 ≤ σ → σ ≤ 0.2501 →
      0.2499 ≤ ivIter 150 150 0.05 0.25 true
          (blackScholesPrice 150 150 0.05 0.25 0.25 true) fuel σ
      ∧ ivIter 150 150 0.05 0.25 true
          (blackScholesPrice 150 150 0.05 0.25 0.25 true) fuel σ ≤ 0.2501 := by
  induction fuel with
  | zero => exact fun σ hσ1 hσ2 => ⟨hσ1, hσ2⟩
  | succ n ih =>
    intro σ hσ1 hσ2
    have hσ : (0:ℝ) < σ := by linarith
    have hV : 0 < blackScholesVega 150 150 0.05 0.25 σ := by
      rw [bs_vega_closed σ hσ]
      exact mul_pos (by norm_num) (normalPDF_pos _)
    simp only [ivIter]
    rw [if_neg hV.ne']
    by_cases htol : |blackScholesPrice 150 150 0.05 0.25 0.25 true
        - blackScholesPrice 150 150 0.05 0.25 σ true| < 0.0001
    · rw [if_pos htol]
      exact ⟨hσ1, hσ2⟩
    · rw [if_neg htol]
      obtain ⟨hn1, hn2⟩ := newton_step_in_J hσ1 hσ2
      have hs1 : ¬(σ + (blackScholesPrice 150 150 0.05 0.25 0.25 true
          - blackScholesPrice 150 150 0.05 0.25 σ true)
          / blackScholesVega 150 150 0.05 0.25 σ < 0.001) := by
        push_neg
        linarith
      rw [if_neg hs1]
      have hs2 : ¬(σ + (blackScholesPrice 150 150 0.05 0.25 0.25 true
          - blackScholesPrice 150 150 0.05 0.25 σ true)
          / blackScholesVega 150 150 0.05 0.25 σ > 5) := by
        push_neg
        linarith
      rw [if_neg hs2]
      exact ih _ hn1 hn2

lemma calculateGreeks_none_iff (S K r T sigma : ℝ) (c : Bool) :
    CalculateGreeks S K r T sigma c = none ↔ T ≤ 0 ∨ sigma ≤ 0 := by
  unfold CalculateGreeks
  split_ifs with h h2
  · simp [h]
  · simp [h]
  · simp [h]

lemma doWithRetryFrom_all_connError (config : RetryConfig) (outcomes : ℕ → AttemptOutcome)
    (hall : ∀ i, outcomes i = .connError) (fuel attempt : ℕ) :
    doWithRetryFrom config outcomes fuel attempt = .failure config.maxRetries := by
  induction fuel generalizing attempt with
  | zero => rfl
  | succ n ih =>
    unfold doWithRetryFrom
    rw [hall attempt]
    split_ifs with h
    · exact ih (attempt + 1)
    · rfl

lemma doWithRetryFrom_all_retryable (config : RetryConfig) (outcomes : ℕ → AttemptOutcome)
    (s : ℕ) (hs : shouldRetry s config.retryOnStatus = true)
    (hall : ∀ i, outcomes i = .response s) (fuel attempt : ℕ)
    (hfuel : (attempt : ℤ) + fuel = config.maxRetries + 1)
    (hle : (attempt : ℤ) ≤ config.maxRetries) :
    doWithRetryFrom config outcomes fuel attempt = .success s := by
  induction fuel generalizing attempt with
  | zero => omega
  | succ n ih =>
    have hstep : doWithRetryFrom config outcomes (n + 1) attempt
        = if shouldRetry s config.retryOnStatus = true ∧ (attempt : ℤ) < config.maxRetries
          then doWithRetryFrom config outcomes n (attempt + 1)
          else .success s := by
      conv_lhs => rw [doWithRetryFrom]
      rw [hall attempt]
    rw [hstep]
    by_cases hlt : (attempt : ℤ) < config.maxRetries
    · rw [if_pos ⟨hs, hlt⟩]
      refine ih (attempt + 1) ?_ ?_
      · push_cast at hfuel ⊢
        omega
      · omega
    · rw [if_neg fun hc => hlt hc.2]

lemma blackScholesPrice_eq_spec (S K r T sigma : ℝ) (c : Bool) :
    blackScholesPrice S K r T sigma c = blackScholesPriceSpec S K r T sigma c := by
  cases c <;> simp only [blackScholesPrice, blackScholesPriceSpec] <;>
    split_ifs with h <;> ring_nf

lemma blackScholesVega_eq_spec (S K r T sigma : ℝ) :
    blackScholesVega S K r T sigma = blackScholesVegaSpec S K r T sigma := by
  simp only [blackScholesVega, blackScholesVegaSpec]
  split_ifs with h
  · rfl
  · ring_nf

lemma clamp_eq_min_max (x : ℝ) :
    (if (if x < 0.001 then (0.001 : ℝ) else x) > 5 then (5 : ℝ)
     else if x < 0.001 then (0.001 : ℝ) else x)
      = min 5 (max 0.001 x) := by
  simp only [min_def, max_def]
  split_ifs <;> linarith

lemma calculateGreeks_eq_some_spec (S K r T sigma : ℝ) (c : Bool)
    (hT : 0 < T) (hsig : 0 < sigma) :
    CalculateGreeks S K r T sigma c = some (greeksSpec S K r T sigma c) := by
  have hcond : ¬(T ≤ 0 ∨ sigma ≤ 0) := by push_neg; constructor <;> linarith
  cases c <;>
    simp only [CalculateGreeks, greeksSpec, hcond, if_false, Bool.false_eq_true,
      ite_false, ite_true, Option.some.injEq, Greeks.mk.injEq] <;>
    refine ⟨?_, ?_, ?_, ?_, ?_⟩ <;> ring_nf

lemma ivIter_eq_spec (S K r T : ℝ) (c : Bool) (m : ℝ) (fuel : ℕ) :
    ∀ sigma, ivIter S K r T c m fuel sigma = ivIterSpec S K r T c m fuel sigma := by
  induction fuel with
  | zero => intro s; rfl
  | succ n ih =>
    intro s
    simp only [ivIter, ivIterSpec, blackScholesPrice_eq_spec, blackScholesVega_eq_spec]
    split_ifs <;>
      first
        | rfl
        | (rw [ih]; congr 1; simp only [min_def, max_def]; split_ifs <;> linarith)

end Gotick

namespace Gotick

/-- C2: for all S, K, r and all T, sigma, and for both the call and the put
flag, `CalculateGreeks` (the spec's `computeGreeks`) returns an absent result
exactly when `T ≤ 0` or `sigma ≤ 0`; equivalently, for `T > 0` and
`sigma > 0` it returns a present Greeks value.  In the real-valued embedding
the absent result is `none`, so no NaN or exceptional outcome exists. -/
theorem calculateGreeks_absent_iff (S K r T sigma : ℝ) (c : Bool) :
    CalculateGreeks S K r T sigma c = none ↔ T ≤ 0 ∨ sigma ≤ 0 :=
  calculateGreeks_none_iff S K r T sigma c

/-- C1: for every spot, strike, rate, volatility and call/put flag,
`blackScholesPrice` returns the intrinsic value `max (S-K) 0` (call) resp.
`max (K-S) 0` (put) whenever `T ≤ 0`, and for `T > 0` returns
`S·Φ(d1) - K·e^(-rT)·Φ(d2)` for calls and `K·e^(-rT)·Φ(-d2) - S·Φ(-d1)` for
puts with `d1 = [ln(S/K) + (r + σ²/2)·T]/(σ·√T)`, `d2 = d1 - σ·√T`:
the source pricer coincides with the spec-transcribed pricer everywhere. -/
theorem blackScholesPrice_matches_spec (S K r T sigma : ℝ) (c : Bool) :
    blackScholesPrice S K r T sigma c = blackScholesPriceSpec S K r T sigma c :=
  blackScholesPrice_eq_spec S K r T sigma c

/-- C3: for every input with `T > 0` and `sigma > 0` and both flags, the five
Greeks returned by `CalculateGreeks` equal the closed-form values stated in
the spec (delta `Φ(d1)` / `Φ(d1)-1`; gamma `φ(d1)/(S·σ·√T)`;
vega `S·√T·φ(d1)/100`; theta `[-(S·φ(d1)·σ)/(2√T) ∓ r·K·e^(-rT)·Φ(±d2)]/365`;
rho `±K·T·e^(-rT)·Φ(±d2)/100`). -/
theorem calculateGreeks_formulas (S K r T sigma : ℝ) (c : Bool)
    (hT : 0 < T) (hsig : 0 < sigma) :
    CalculateGreeks S K r T sigma c = some (greeksSpec S K r T sigma c) :=
  calculateGreeks_eq_some_spec S K r T sigma c hT hsig

/-- Witness for C3 at the concrete input S=1, K=1, r=0, T=1, sigma=1, call. -/
theorem calculateGreeks_formulas_witness :
    CalculateGreeks 1 1 0 1 1 true = some (greeksSpec 1 1 0 1 1 true) :=
  calculateGreeks_formulas 1 1 0 1 1 true (by norm_num) (by norm_num)

/-- C4: for every market price and market parameters, `ImpliedVolatility`
performs exactly the specified Newton-Raphson iteration — initial guess 0.3,
at most 100 iterations, pricing via the pricer and the unscaled vega helper,
returning the current sigma on a zero vega or on `|diff| < 0.0001`, otherwise
updating by `diff/vega` and clamping to `[0.001, 5.0]` after every update,
returning the last sigma when the budget is exhausted.  As a total function
of its real inputs it always returns a numeric value. -/
theorem impliedVolatility_matches_spec (marketPrice S K r T : ℝ) (c : Bool) :
    ImpliedVolatility marketPrice S K r T c
      = impliedVolatilitySpec marketPrice S K r T c :=
  ivIter_eq_spec S K r T c marketPrice 100 0.3

set_option maxHeartbeats 1600000 in
/-- C5: for S=150, K=150, r=0.05, T=0.25, sigma=0.25 and the call flag,
feeding the price produced by `blackScholesPrice` back into
`ImpliedVolatility` recovers a volatility within 0.01 of 0.25.  (The first
Newton step from 0.3 lands in [0.2499, 0.2501] and every further step of the
loop stays there, so whichever exit the loop takes returns a value within
0.0001 of 0.25.) -/
theorem impliedVolatility_roundtrip :
    |ImpliedVolatility (blackScholesPrice 150 150 0.05 0.25 0.25 true)
      150 150 0.05 0.25 true - 0.25| < 0.01 := by
  obtain ⟨hD1, hD2, hV1, hV2⟩ := diff0_V0_bounds
  have hVpos : 0 < blackScholesVega 150 150 0.05 0.25 0.3 := by linarith
  have htol : ¬(|blackScholesPrice 150 150 0.05 0.25 0.25 true
      - blackScholesPrice 150 150 0.05 0.25 0.3 true| < 0.0001) := by
    apply not_lt.mpr
    calc (0.0001:ℝ)
        ≤ -(blackScholesPrice 150 150 0.05 0.25 0.25 true
            - blackScholesPrice 150 150 0.05 0.25 0.3 true) := by linarith
      _ ≤ |blackScholesPrice 150 150 0.05 0.25 0.25 true
            - blackScholesPrice 150 150 0.05 0.25 0.3 true| := neg_le_abs _
  have hq1 : 0.2499 ≤ 0.3 + (blackScholesPrice 150 150 0.05 0.25 0.25 true
      - blackScholesPrice 150 150 0.05 0.25 0.3 true)
      / blackScholesVega 150 150 0.05 0.25 0.3 := by
    have hdiv : (-0.0501:ℝ) ≤ (blackScholesPrice 150 150 0.05 0.25 0.25 true
        - blackScholesPrice 150 150 0.05 0.25 0.3 true)
        / blackScholesVega 150 150 0.05 0.25 0.3 := by
      rw [le_div_iff hVpos]
      nlinarith
    linarith
  have hq2 : 0.3 + (blackScholesPrice 150 150 0.05 0.25 0.25 true
      - blackScholesPrice 150 150 0.05 0.25 0.3 true)
      / blackScholesVega 150 150 0.05 0.25 0.3 ≤ 0.2501 := by
    have hdiv : (blackScholesPrice 150 150 0.05 0.25 0.25 true
        - blackScholesPrice 150 150 0.05 0.25 0.3 true)
        / blackScholesVega 150 150 0.05 0.25 0.3 ≤ -0.0499 := by
      rw [div_le_iff hVpos]
      nlinarith
    linarith
  have hstep : ImpliedVolatility (blackScholesPrice 150 150 0.05 0.25 0.25 true)
      150 150 0.05 0.25 true
      = ivIter 150 150 0.05 0.25 true (blackScholesPrice 150 150 0.05 0.25 0.25 true) 99
          (0.3 + (blackScholesPrice 150 150 0.05 0.25 0.25 true
            - blackScholesPrice 150 150 0.05 0.25 0.3 true)
            / blackScholesVega 150 150 0.05 0.25 0.3) := by
    unfold ImpliedVolatility
    rw [show (100:ℕ) = 99 + 1 from rfl, ivIter_succ]
    rw [if_neg hVpos.ne', if_neg htol]
    have hs1 : ¬(0.3 + (blackScholesPrice 150 150 0.05 0.25 0.25 true
        - blackScholesPrice 150 150 0.05 0.25 0.3 true)
        / blackScholesVega 150 150 0.05 0.25 0.3 < 0.001) := by
      push_neg
      linarith
    rw [if_neg hs1]
    have hs2 : ¬(0.3 + (blackScholesPrice 150 150 0.05 0.25 0.25 true
        - blackScholesPrice 150 150 0.05 0.25 0.3 true)
        / blackScholesVega 150 150 0.05 0.25 0.3 > 5) := by
      push_neg
      linarith
    rw [if_neg hs2]
  rw [hstep]
  obtain ⟨hr1, hr2⟩ := ivIter_stays_in_J 99 _ hq1 hq2
  rw [abs_lt]
  constructor <;> linarith

/-- C6 counterexample: for S=1, K=25000, r=1, T=1, sigma=1 and the put flag
(all of S, K > 0, T > 0, sigma > 0, r real, as the claim quantifies),
`CalculateGreeks` produces a present Greeks value whose theta is positive,
refuting "theta < 0 for both flags for every real r". -/
theorem greeks_negative_theta_counterexample :
    0 < thetaOf (CalculateGreeks 1 25000 1 1 1 false)
    ∧ (CalculateGreeks 1 25000 1 1 1 false).isSome = true := by
  rw [calculateGreeks_eq_some_spec 1 25000 1 1 1 false (by norm_num) (by norm_num)]
  refine ⟨?_, rfl⟩
  simp only [thetaOf, Option.elim, greeksSpec, Bool.false_eq_true, ite_false, if_false]
  norm_num [Real.sqrt_one]
  have hli : Real.log (1 / 25000 : ℝ) = -Real.log 25000 := by
    rw [one_div, Real.log_inv]
  rw [hli]
  have harg : (1 : ℝ) - (-Real.log 25000 + 3 / 2) = Real.log 25000 - 1 / 2 := by ring
  rw [harg]
  have hlog : 1 ≤ Real.log 25000 := by
    rw [Real.le_log_iff_exp_le (by norm_num : (0:ℝ) < 25000)]
    calc Real.exp 1 ≤ 2.7182818286 := Real.exp_one_lt_d9.le
      _ ≤ 25000 := by norm_num
  have hcdf : 1 / 2 ≤ normalCDF (Real.log 25000 - 1 / 2) :=
    normalCDF_ge_half (by linarith)
  have hexp : 1 / 3 ≤ Real.exp (-1 : ℝ) := by
    have h3 : Real.exp 1 ≤ 3 := by
      calc Real.exp 1 ≤ 2.7182818286 := Real.exp_one_lt_d9.le
        _ ≤ 3 := by norm_num
    have h13 : 1 / 3 ≤ 1 / Real.exp 1 := one_div_le_one_div_of_le (Real.exp_pos 1) h3
    rw [Real.exp_neg, ← one_div]
    exact h13
  have hpdf := normalPDF_le_half (-Real.log 25000 + 3 / 2)
  have hcdf0 := normalCDF_nonneg (Real.log 25000 - 1 / 2)
  nlinarith [mul_le_mul hexp hcdf (by norm_num) (Real.exp_pos (-1:ℝ)).le]

/-- C6 amended: for every S, K > 0, T > 0, sigma > 0 and both flags, gamma
and vega are positive for every real r; theta is negative for calls whenever
r ≥ 0 and for puts whenever r ≤ 0 (for a call with sufficiently negative r,
or a put with positive r, the sign can flip, as the counterexample shows). -/
theorem greeks_signs_amended (S K r T sigma : ℝ) (c : Bool)
    (hS : 0 < S) (hK : 0 < K) (hT : 0 < T) (hsig : 0 < sigma) :
    0 < gammaOf (CalculateGreeks S K r T sigma c)
    ∧ 0 < vegaOf (CalculateGreeks S K r T sigma c)
    ∧ (c = true → 0 ≤ r → thetaOf (CalculateGreeks S K r T sigma c) < 0)
    ∧ (c = false → r ≤ 0 → thetaOf (CalculateGreeks S K r T sigma c) < 0) := by
  rw [calculateGreeks_eq_some_spec S K r T sigma c hT hsig]
  cases c
  · simp only [gammaOf, vegaOf, thetaOf, Option.elim, greeksSpec, Bool.false_eq_true,
      ite_false, if_false]
    refine ⟨?_, ?_, ?_, ?_⟩
    · exact div_pos (normalPDF_pos _) (by positivity)
    · exact spec_vega_pos S T _ hS hT
    · intro h
      exact absurd h (by simp)
    · intro _ hr
      exact spec_theta_put_neg S K r T sigma _ _ hS hK hT hsig hr
  · simp only [gammaOf, vegaOf, thetaOf, Option.elim, greeksSpec, ite_true, if_true]
    refine ⟨?_, ?_, ?_, ?_⟩
    · exact div_pos (normalPDF_pos _) (by positivity)
    · exact spec_vega_pos S T _ hS hT
    · intro _ hr
      exact spec_theta_call_neg S K r T sigma _ _ hS hK hT hsig hr
    · intro h
      exact absurd h (by simp)

/-- Witness for C6's amended statement at S=1, K=1, r=0, T=1, sigma=1, call. -/
theorem greeks_signs_amended_witness :
    0 < gammaOf (CalculateGreeks 1 1 0 1 1 true)
    ∧ 0 < vegaOf (CalculateGreeks 1 1 0 1 1 true)
    ∧ thetaOf (CalculateGreeks 1 1 0 1 1 true) < 0 := by
  obtain ⟨h1, h2, h3, _⟩ :=
    greeks_signs_amended 1 1 0 1 1 true (by norm_num) (by norm_num) (by norm_num) (by norm_num)
  exact ⟨h1, h2, h3 rfl le_rfl⟩

/-- C7 counterexample: the epsilon substitution fixes only the `T ≤ 0`
degeneracy.  A contract whose implied volatility is 0 still receives an
absent Greeks estimate in the enriched chain, so not every contract receives
a defined estimate. -/
theorem chainEnrichment_zero_iv_counterexample :
    (CalculateOptionGreeks zeroIVContract 100 0.05 true).greeks = none := by
  norm_num [CalculateOptionGreeks, zeroIVContract, CalculateGreeks, unixNow]

/-- C7 amended: the chain enrichment computes each contract's time-to-expiry
as `(expiration - current time) / (365.25 days in seconds)`, substituting the
positive epsilon 0.0001 years whenever that value is ≤ 0, and feeds it to the
Greeks calculator with the contract's strike and implied volatility — so
every contract *with positive implied volatility* (including near-expiry and
expired ones) receives a defined Greeks estimate, while contracts with
implied volatility ≤ 0 still receive an absent one. -/
theorem chainEnrichment_amended (opt : OptionContract) (u rate : ℝ) (c : Bool) :
    (CalculateOptionGreeks opt u rate c).option = opt
    ∧ (CalculateOptionGreeks opt u rate c).greeks
        = CalculateGreeks u opt.strike rate
            (timeToExpirySpec opt.expiration unixNow) opt.impliedVolatility c
    ∧ (0 < opt.impliedVolatility →
        ((CalculateOptionGreeks opt u rate c).greeks).isSome = true) := by
  have harith : (365.25 : ℝ) * 24 * 60 * 60 = 365.25 * 86400 := by norm_num
  have hTeq : (if ((opt.expiration : ℝ) - (unixNow : ℝ)) / (365.25 * 24 * 60 * 60) ≤ 0
        then (0.0001 : ℝ)
        else ((opt.expiration : ℝ) - (unixNow : ℝ)) / (365.25 * 24 * 60 * 60))
      = timeToExpirySpec opt.expiration unixNow := by
    rw [timeToExpirySpec, harith]
  refine ⟨rfl, ?_, ?_⟩
  · simp only [CalculateOptionGreeks]
    rw [hTeq]
  · intro hIV
    simp only [CalculateOptionGreeks]
    rw [hTeq]
    have hTpos : 0 < timeToExpirySpec opt.expiration unixNow := by
      rw [timeToExpirySpec]
      split_ifs with h
      · norm_num
      · push_neg at h
        exact h
    have hcond : ¬(timeToExpirySpec opt.expiration unixNow ≤ 0 ∨ opt.impliedVolatility ≤ 0) := by
      push_neg
      exact ⟨hTpos, hIV⟩
    unfold CalculateGreeks
    rw [if_neg hcond]
    cases c <;> simp

/-- Witness for C7's amended statement at a concrete contract with positive
implied volatility. -/
theorem chainEnrichment_amended_witness :
    (CalculateOptionGreeks { zeroIVContract with impliedVolatility := 1/2 } 100 0.05
        true).option = { zeroIVContract with impliedVolatility := 1/2 }
    ∧ ((CalculateOptionGreeks { zeroIVContract with impliedVolatility := 1/2 } 100 0.05
        true).greeks).isSome = true :=
  ⟨(chainEnrichment_amended { zeroIVContract with impliedVolatility := 1/2 } 100 0.05 true).1,
   (chainEnrichment_amended { zeroIVContract with impliedVolatility := 1/2 } 100 0.05 true).2.2
     (by norm_num [zeroIVContract])⟩

/-- C8: in every rate-limiter state reachable from the initial state (token
count equal to the configured burst) by any sequence of refills and
acquisitions, the token count never exceeds the configured burst, and a
successful acquisition (which requires at least one token) never drives the
count negative. -/
theorem rateLimiter_reachable_invariant (requestsPerSecond : ℚ) (burst : ℤ) (now0 : ℚ)
    (s : RateLimiter) (h : RLReachable requestsPerSecond burst now0 s) :
    s.tokens ≤ (burst : ℚ) ∧ (1 ≤ s.tokens → 0 ≤ s.deduct.tokens) := by
  have hmax : s.maxTokens = (burst : ℚ) ∧ s.tokens ≤ (burst : ℚ) := by
    induction h with
    | init => exact ⟨rfl, le_refl _⟩
    | step _ hstep ih =>
      cases hstep with
      | refill now hnow =>
        refine ⟨ih.1, ?_⟩
        simp only [RateLimiter.refill]
        exact le_trans (min_le_left _ _) (le_of_eq ih.1)
      | acquire hub =>
        refine ⟨ih.1, ?_⟩
        simp only [RateLimiter.deduct]
        linarith [ih.2]
  refine ⟨hmax.2, fun h1 => ?_⟩
  simp only [RateLimiter.deduct]
  linarith

/-- Witness for C8 at a concrete instance: the initial state of a limiter
with 10 tokens/second and burst 5. -/
theorem rateLimiter_reachable_invariant_witness :
    (NewRateLimiter 10 5 0).tokens ≤ ((5 : ℤ) : ℚ)
      ∧ (1 ≤ (NewRateLimiter 10 5 0).tokens → 0 ≤ (NewRateLimiter 10 5 0).deduct.tokens) :=
  rateLimiter_reachable_invariant 10 5 0 _ RLReachable.init

/-- C9 counterexample: with the default configuration (3 retries, 429
retryable) and every attempt answering status 429, the retry budget is
exhausted by retryable status codes, yet `doWithRetry` returns the final
429 response to the caller instead of a wrapped error. -/
theorem doWithRetry_retryable_exhaustion_counterexample :
    doWithRetry DefaultRetryConfig (fun _ => AttemptOutcome.response 429)
      = RetryResult.success 429 := by
  decide

/-- C9 amended: when the retry budget is exhausted by repeated connection
errors, `doWithRetry` surfaces the wrapped error identifying the configured
retry count; when it is exhausted by responses with retryable status codes,
the last retryable response itself is returned to the caller rather than an
error. -/
theorem doWithRetry_exhaustion_amended (config : RetryConfig)
    (outcomes : ℕ → AttemptOutcome) (s : ℕ) :
    ((∀ i, outcomes i = .connError) →
       doWithRetry config outcomes = .failure config.maxRetries)
    ∧ (0 ≤ config.maxRetries → (∀ i, outcomes i = .response s) →
       shouldRetry s config.retryOnStatus = true →
       doWithRetry config outcomes = .success s) := by
  constructor
  · intro hall
    exact doWithRetryFrom_all_connError config outcomes hall _ 0
  · intro h0 hall hs
    exact doWithRetryFrom_all_retryable config outcomes s hs hall _ 0 (by omega) h0

/-- Witness for C9's amended statement: the default configuration with all
attempts failing at transport level yields the wrapped error carrying 3; with
all attempts answering 429 it yields the 429 response. -/
theorem doWithRetry_exhaustion_amended_witness :
    doWithRetry DefaultRetryConfig (fun _ => AttemptOutcome.connError)
        = RetryResult.failure 3
    ∧ doWithRetry DefaultRetryConfig (fun _ => AttemptOutcome.response 429)
        = RetryResult.success 429 :=
  ⟨(doWithRetry_exhaustion_amended DefaultRetryConfig (fun _ => .connError) 429).1
      (fun _ => rfl),
   (doWithRetry_exhaustion_amended DefaultRetryConfig (fun _ => .response 429) 429).2
      (by decide) (fun _ => rfl) (by decide)⟩

/-- C10: the source `RateLimiter` carries no mutex, so the `rl.tokens >= 1`
test and the `rl.tokens--` decrement of two concurrent `Wait` callers can
interleave.  From a one-token state, the schedule in which both goroutines
pass the test before either decrements lets both acquire successfully
(both reach pc 2) and drives the shared token count to -1: the single token
is double-spent and the count overdrawn, contradicting the claimed
exclusive-access discipline. -/
theorem rateLimiter_unsynchronized_double_spend :
    (runRace { tokens := 1, pc1 := 0, pc2 := 0 } [false, true, false, true]).pc1 = 2
    ∧ (runRace { tokens := 1, pc1 := 0, pc2 := 0 } [false, true, false, true]).pc2 = 2
    ∧ (runRace { tokens := 1, pc1 := 0, pc2 := 0 } [false, true, false, true]).tokens = -1 := by
  norm_num [runRace, raceStep, raceThreadStep]

end Gotick
